import Mathlib

/-!
Verification of the yx packet protocol core (Python reference implementation).

The embedding models bytes as `List Nat` (each element a byte value `< 256`),
Python exceptions as `Except YxError` results, and `None`-returning functions
as `Option`.  HMAC-SHA-256 (the library primitive the code calls) is
implemented concretely below, so every definition is executable.
-/

namespace Yx

/-- 2^32, the word modulus for SHA-256 arithmetic. -/
def M32 : Nat := 4294967296

/-- Rotate a 32-bit word right by `n` bits. -/
def rotr32 (n x : Nat) : Nat :=
  (Nat.lor (Nat.shiftRight x n) (Nat.shiftLeft x (32 - n))) % M32

/-- SHA-256 Ch(x,y,z) = (x ∧ y) ⊕ (¬x ∧ z) on 32-bit words. -/
def shaCh (x y z : Nat) : Nat :=
  Nat.xor (Nat.land x y) (Nat.land (Nat.xor x 4294967295) z)

/-- SHA-256 Maj(x,y,z) = (x ∧ y) ⊕ (x ∧ z) ⊕ (y ∧ z). -/
def shaMaj (x y z : Nat) : Nat :=
  Nat.xor (Nat.xor (Nat.land x y) (Nat.land x z)) (Nat.land y z)

/-- SHA-256 Σ₀. -/
def bigSigma0 (x : Nat) : Nat :=
  Nat.xor (Nat.xor (rotr32 2 x) (rotr32 13 x)) (rotr32 22 x)

/-- SHA-256 Σ₁. -/
def bigSigma1 (x : Nat) : Nat :=
  Nat.xor (Nat.xor (rotr32 6 x) (rotr32 11 x)) (rotr32 25 x)

/-- SHA-256 σ₀. -/
def smallSigma0 (x : Nat) : Nat :=
  Nat.xor (Nat.xor (rotr32 7 x) (rotr32 18 x)) (Nat.shiftRight x 3)

/-- SHA-256 σ₁. -/
def smallSigma1 (x : Nat) : Nat :=
  Nat.xor (Nat.xor (rotr32 17 x) (rotr32 19 x)) (Nat.shiftRight x 10)

/-- The 64 SHA-256 round constants of FIPS 180-4, in decimal. -/
def sha256K : List Nat :=
  [1116352408, 1899447441, 3049323471, 3921009573, 961987163,
   1508970993, 2453635748, 2870763221, 3624381080, 310598401,
   607225278, 1426881987, 1925078388, 2162078206, 2614888103,
   3248222580, 3835390401, 4022224774, 264347078, 604807628,
   770255983, 1249150122, 1555081692, 1996064986, 2554220882,
   2821834349, 2952996808, 3210313671, 3336571891, 3584528711,
   113926993, 338241895, 666307205, 773529912, 1294757372,
   1396182291, 1695183700, 1986661051, 2177026350, 2456956037,
   2730485921, 2820302411, 3259730800, 3345764771, 3516065817,
   3600352804, 4094571909, 275423344, 430227734, 506948616,
   659060556, 883997877, 958139571, 1322822218, 1537002063,
   1747873779, 1955562222, 2024104815, 2227730452, 2361852424,
   2428436474, 2756734187, 3204031479, 3329325298]

/-- Working state of the SHA-256 compression function: eight 32-bit words. -/
structure ShaState where
  a : Nat
  b : Nat
  c : Nat
  d : Nat
  e : Nat
  f : Nat
  g : Nat
  h : Nat
deriving Repr, DecidableEq

/-- The SHA-256 initial hash value H⁽⁰⁾ of FIPS 180-4, in decimal. -/
def sha256H0 : ShaState :=
  { a := 1779033703, b := 3144134277, c := 1013904242, d := 2773480762,
    e := 1359893119, f := 2600822924, g := 528734635, h := 1541459225 }

/-- One SHA-256 round; `kw` is the pair (round constant, schedule word). -/
def shaRound (s : ShaState) (kw : Nat × Nat) : ShaState :=
  let t1 := (s.h + bigSigma1 s.e + shaCh s.e s.f s.g + kw.1 + kw.2) % M32
  let t2 := (bigSigma0 s.a + shaMaj s.a s.b s.c) % M32
  { a := (t1 + t2) % M32, b := s.a, c := s.b, d := s.c,
    e := (s.d + t1) % M32, f := s.e, g := s.f, h := s.g }

/-- Group bytes into big-endian 32-bit words (drops a trailing partial word;
never happens on whole blocks). -/
def bytesToWords : List Nat → List Nat
  | b0 :: b1 :: b2 :: b3 :: rest =>
      (((b0 * 256 + b1) * 256 + b2) * 256 + b3) :: bytesToWords rest
  | _ => []

/-- Extend the message schedule by `n` further words.  `acc` holds the words
produced so far in reverse order, so `acc[1]` is W[t−2], `acc[6]` is W[t−7],
`acc[14]` is W[t−15] and `acc[15]` is W[t−16]. -/
def extendSchedule : Nat → List Nat → List Nat
  | 0, acc => acc.reverse
  | n + 1, acc =>
      let w := (smallSigma1 (acc.getD 1 0) + acc.getD 6 0 +
                smallSigma0 (acc.getD 14 0) + acc.getD 15 0) % M32
      extendSchedule n (w :: acc)

/-- The 64-word message schedule of one 64-byte block. -/
def schedule (block : List Nat) : List Nat :=
  extendSchedule 48 (bytesToWords block).reverse

/-- SHA-256 compression: run the 64 rounds on one block and add the result
into the chaining state (word-wise mod 2³²). -/
def shaCompress (s : ShaState) (block : List Nat) : ShaState :=
  let t := (sha256K.zip (schedule block)).foldl shaRound s
  { a := (s.a + t.a) % M32, b := (s.b + t.b) % M32, c := (s.c + t.c) % M32,
    d := (s.d + t.d) % M32, e := (s.e + t.e) % M32, f := (s.f + t.f) % M32,
    g := (s.g + t.g) % M32, h := (s.h + t.h) % M32 }

/-- Consume the padded message 64 bytes at a time.  Fuel-driven so that the
recursion is structural and the definition evaluates in the kernel. -/
def processBlocks : Nat → ShaState → List Nat → ShaState
  | 0, s, _ => s
  | _ + 1, s, [] => s
  | fuel + 1, s, msg => processBlocks fuel (shaCompress s (msg.take 64)) (msg.drop 64)

/-- Big-endian 8-byte encoding of the message bit length. -/
def lenBytes64 (n : Nat) : List Nat :=
  [n / 72057594037927936 % 256, n / 281474976710656 % 256,
   n / 1099511627776 % 256, n / 4294967296 % 256,
   n / 16777216 % 256, n / 65536 % 256, n / 256 % 256, n % 256]

/-- SHA-256 padding: append 0x80, zero bytes to 56 mod 64, then the 64-bit
big-endian bit length. -/
def sha256Pad (msg : List Nat) : List Nat :=
  msg ++ [128] ++ List.replicate ((64 - ((msg.length + 9) % 64)) % 64) 0 ++
    lenBytes64 (msg.length * 8)

/-- Big-endian 4-byte encoding of a 32-bit word. -/
def wordBytes (w : Nat) : List Nat :=
  [w / 16777216 % 256, w / 65536 % 256, w / 256 % 256, w % 256]

/-- The digest bytes of a final chaining state. -/
def stateBytes (s : ShaState) : List Nat :=
  wordBytes s.a ++ wordBytes s.b ++ wordBytes s.c ++ wordBytes s.d ++
  wordBytes s.e ++ wordBytes s.f ++ wordBytes s.g ++ wordBytes s.h

/-- SHA-256 of a byte string, as its 32 digest bytes. -/
def sha256 (msg : List Nat) : List Nat :=
  let padded := sha256Pad msg
  stateBytes (processBlocks (padded.length / 64) sha256H0 padded)

/-- HMAC-SHA-256 (RFC 2104): full 32-byte tag. -/
def hmacSha256 (key msg : List Nat) : List Nat :=
  let k0 := if 64 < key.length then sha256 key else key
  let kb := k0 ++ List.replicate (64 - k0.length) 0
  sha256 ((kb.map (Nat.xor 92)) ++ sha256 ((kb.map (Nat.xor 54)) ++ msg))

/-- The distinct typed failures the Python code raises as `ValueError`
(distinguished there by message text). -/
inductive YxError where
  | invalidKeyLength
  | invalidTagLength
  | invalidGuidLength
  | invalidHmacLength
  | hexDecodeError
deriving Repr, DecidableEq

/-! ### `yx/primitives/data_crypto.py` -/

/-- `compute_hmac(data, key, truncate_to)`: HMAC-SHA256 truncated to
`truncate_to` bytes; `ValueError` if the key is not 32 bytes or the
requested length exceeds 32. -/
def compute_hmac (data key : List Nat) (truncate_to : Nat) : Except YxError (List Nat) :=
  if key.length ≠ 32 then .error .invalidKeyLength
  else if 32 < truncate_to then .error .invalidTagLength
  else .ok ((hmacSha256 key data).take truncate_to)

/-- `validate_hmac_constant_time`: recompute and compare; any `ValueError`
raised during recomputation is caught and collapsed to `False`.
(`hmac.compare_digest` on equal-typed byte strings is semantically
equality; its constant-time execution is a timing property outside the
functional embedding.) -/
def validate_hmac_constant_time (data key expected_hmac : List Nat)
    (truncate_to : Nat) : Bool :=
  match compute_hmac data key truncate_to with
  | .ok computed => computed == expected_hmac
  | .error _ => false

/-- `compute_packet_hmac(guid, payload, key)`: `ValueError` if the GUID is
not 6 bytes, else HMAC over `guid + payload` truncated to 16. -/
def compute_packet_hmac (guid payload key : List Nat) : Except YxError (List Nat) :=
  if guid.length ≠ 6 then .error .invalidGuidLength
  else compute_hmac (guid ++ payload) key 16

/-- `validate_packet_hmac`: recompute the packet HMAC and compare; any
`ValueError` is caught and collapsed to `False`. -/
def validate_packet_hmac (guid payload key expected_hmac : List Nat) : Bool :=
  match compute_packet_hmac guid payload key with
  | .ok computed => computed == expected_hmac
  | .error _ => false

/-! ### `yx/primitives/guid_factory.py` -/

/-- `GUIDFactory.pad_guid`: normalize to exactly 6 bytes (identity at 6,
zero-pad below, truncate above). -/
def pad_guid (guid : List Nat) : List Nat :=
  if guid.length = 6 then guid
  else if guid.length < 6 then guid ++ List.replicate (6 - guid.length) 0
  else guid.take 6

/-- Value of one hex digit (`0-9`, `a-f`, `A-F`), as in CPython's
`_PyLong_DigitValue` table used by `bytes.fromhex`. -/
def hexDigitVal (c : Char) : Option Nat :=
  if 48 ≤ c.toNat ∧ c.toNat ≤ 57 then some (c.toNat - 48)
  else if 97 ≤ c.toNat ∧ c.toNat ≤ 102 then some (c.toNat - 87)
  else if 65 ≤ c.toNat ∧ c.toNat ≤ 70 then some (c.toNat - 55)
  else none

/-- ASCII whitespace as CPython's `Py_ISSPACE`: space, `\t`, `\n`, `\v`,
`\f`, `\r`. -/
def isPySpace (c : Char) : Bool :=
  c.toNat == 32 || (decide (9 ≤ c.toNat) && decide (c.toNat ≤ 13))

/-- CPython `bytes.fromhex`: skip ASCII whitespace between byte pairs, then
read two hex digits per byte (no whitespace inside a pair); `ValueError`
(here `none`) on any other character or a dangling digit. -/
def bytesFromHex : List Char → Option (List Nat)
  | [] => some []
  | c :: rest =>
      if isPySpace c then bytesFromHex rest
      else
        match hexDigitVal c with
        | none => none
        | some hi =>
            match rest with
            | [] => none
            | d :: rest2 =>
                match hexDigitVal d with
                | none => none
                | some lo => (bytesFromHex rest2).map (fun bs => (hi * 16 + lo) :: bs)

/-- `GUIDFactory.from_hex`: decode hex (Python `bytes.fromhex`) then pad;
the decode `ValueError` propagates. -/
def from_hex (s : List Char) : Except YxError (List Nat) :=
  match bytesFromHex s with
  | none => .error .hexDecodeError
  | some bs => .ok (pad_guid bs)

/-- One lowercase hex digit character for a value `< 16`, as produced by
Python's `bytes.hex()`. -/
def natToHexChar (v : Nat) : Char :=
  if v < 10 then Char.ofNat (48 + v) else Char.ofNat (87 + v)

/-- `GUIDFactory.to_hex`: Python `bytes.hex()`, two lowercase hex digits
per byte. -/
def to_hex (guid : List Nat) : List Char :=
  guid.foldr (fun b acc => natToHexChar (b / 16) :: natToHexChar (b % 16) :: acc) []

/-! ### `yx/transport/packet.py` -/

/-- The in-memory packet record `{hmac, guid, payload}`. -/
structure Packet where
  hmac : List Nat
  guid : List Nat
  payload : List Nat
deriving Repr, DecidableEq

/-- `Packet(...)` construction: `__post_init__` raises `ValueError` unless
the MAC is exactly 16 bytes and the GUID exactly 6. -/
def mkPacket (hmac guid payload : List Nat) : Except YxError Packet :=
  if hmac.length ≠ 16 then .error .invalidHmacLength
  else if guid.length ≠ 6 then .error .invalidGuidLength
  else .ok ⟨hmac, guid, payload⟩

/-- `Packet.to_bytes`: MAC(16) ++ GUID(6) ++ payload. -/
def Packet.to_bytes (p : Packet) : List Nat :=
  p.hmac ++ p.guid ++ p.payload

/-- `Packet.from_bytes`: `None` below 22 bytes, else slice `[0:16]`,
`[16:22]`, `[22:]` and construct (construction errors caught to `None`). -/
def Packet.from_bytes (data : List Nat) : Option Packet :=
  if data.length < 22 then none
  else (mkPacket (data.take 16) ((data.drop 16).take 6) (data.drop 22)).toOption

/-! ### `yx/transport/packet_builder.py` -/

/-- `PacketBuilder.build_packet`: pad the GUID, compute the packet HMAC,
construct the packet; `ValueError`s propagate. -/
def build_packet (guid payload key : List Nat) : Except YxError Packet :=
  match compute_packet_hmac (pad_guid guid) payload key with
  | .error e => .error e
  | .ok mac => mkPacket mac (pad_guid guid) payload

/-- `PacketBuilder.build_and_serialize`: build then serialize; a build
error propagates. -/
def build_and_serialize (guid payload key : List Nat) : Except YxError (List Nat) :=
  match build_packet guid payload key with
  | .error e => .error e
  | .ok p => .ok p.to_bytes

/-- `PacketBuilder.parse_packet`: structural decode only. -/
def parse_packet (data : List Nat) : Option Packet :=
  Packet.from_bytes data

/-- `PacketBuilder.validate_hmac`: packet-HMAC check of a parsed packet. -/
def validate_hmac (p : Packet) (key : List Nat) : Bool :=
  validate_packet_hmac p.guid p.payload key p.hmac

/-- `PacketBuilder.parse_and_validate`: decode, then authenticate; any
failure yields `None`. -/
def parse_and_validate (data key : List Nat) : Option Packet :=
  match parse_packet data with
  | none => none
  | some p => if validate_hmac p key then some p else none

/-! ### Spec-side vocabulary used only to state claims -/

/-- The sixteen lowercase hex digit characters. -/
def lowerHexChars : List Char :=
  (List.range 16).map natToHexChar

/-- A lowercase hexadecimal digit character. -/
def isLowerHex (c : Char) : Bool :=
  decide (c ∈ lowerHexChars)

/-- Stated from the spec's words (amended claim C6): a string is valid input
to `from_hex` when, ignoring ASCII whitespace between byte pairs, it is a
sequence of two-hex-digit pairs. -/
def validHexSyntax : List Char → Bool
  | [] => true
  | c :: rest =>
      if isPySpace c then validHexSyntax rest
      else
        match hexDigitVal c with
        | none => false
        | some _ =>
            match rest with
            | [] => false
            | d :: rest2 => (hexDigitVal d).isSome && validHexSyntax rest2

/-! ### Helper lemmas -/

/-- A final chaining state always yields 32 digest bytes. -/
theorem stateBytes_length (s : ShaState) : (stateBytes s).length = 32 := by
  simp [stateBytes, wordBytes]

/-- SHA-256 digests are 32 bytes. -/
theorem sha256_length (m : List Nat) : (sha256 m).length = 32 :=
  stateBytes_length _

/-- HMAC-SHA-256 tags are 32 bytes before truncation. -/
theorem hmacSha256_length (key msg : List Nat) : (hmacSha256 key msg).length = 32 :=
  sha256_length _

/-- `pad_guid` always returns exactly 6 bytes. -/
theorem pad_guid_length (g : List Nat) : (pad_guid g).length = 6 := by
  unfold pad_guid
  split
  · assumption
  · split
    · simp; omega
    · simp; omega

/-- Characterization of successful packet construction. -/
theorem mkPacket_ok {hm g pl : List Nat} {pkt : Packet} :
    mkPacket hm g pl = .ok pkt ↔ hm.length = 16 ∧ g.length = 6 ∧ pkt = ⟨hm, g, pl⟩ := by
  unfold mkPacket
  split
  · constructor
    · intro h; cases h
    · intro ⟨h1, _, _⟩; omega
  · split
    · constructor
      · intro h; cases h
      · intro ⟨_, h2, _⟩; omega
    · constructor
      · intro h; cases h; exact ⟨by omega, by omega, rfl⟩
      · intro ⟨_, _, h3⟩; rw [h3]

/-- Structural decode of a long-enough buffer always succeeds, with the
three fixed slices. -/
theorem from_bytes_of_le {b : List Nat} (h : 22 ≤ b.length) :
    Packet.from_bytes b = some ⟨b.take 16, (b.drop 16).take 6, b.drop 22⟩ := by
  unfold Packet.from_bytes
  rw [if_neg (by omega)]
  have h1 : (b.take 16).length = 16 := by simp; omega
  have h2 : ((b.drop 16).take 6).length = 6 := by simp; omega
  rw [mkPacket_ok.2 ⟨h1, h2, rfl⟩]
  rfl

/-- With a 32-byte key, the packet HMAC of a padded GUID is the truncated
HMAC-SHA-256 over GUID ++ payload. -/
theorem compute_packet_hmac_eq (g p key : List Nat) (hk : key.length = 32) :
    compute_packet_hmac (pad_guid g) p key =
      .ok ((hmacSha256 key (pad_guid g ++ p)).take 16) := by
  unfold compute_packet_hmac compute_hmac
  rw [if_neg (by rw [pad_guid_length]; omega), if_neg (by omega), if_neg (by omega)]

/-- With a 32-byte key, `build_packet` succeeds with the explicit packet. -/
theorem build_packet_ok_eq (g p key : List Nat) (hk : key.length = 32) :
    build_packet g p key =
      .ok ⟨(hmacSha256 key (pad_guid g ++ p)).take 16, pad_guid g, p⟩ := by
  unfold build_packet
  rw [compute_packet_hmac_eq g p key hk]
  exact mkPacket_ok.2 ⟨by simp [hmacSha256_length], pad_guid_length g, rfl⟩

/-- A lowercase hex digit character decodes to a value below 16 that
re-encodes to the same character. -/
theorem lowerHex_val (c : Char) (hc : isLowerHex c = true) :
    ∃ v, hexDigitVal c = some v ∧ v < 16 ∧ natToHexChar v = c := by
  have hm : c ∈ lowerHexChars := of_decide_eq_true hc
  fin_cases hm <;> exact ⟨_, rfl, by decide, rfl⟩

/-- Lowercase hex digits are not ASCII whitespace. -/
theorem lowerHex_not_space (c : Char) (hc : isLowerHex c = true) :
    isPySpace c = false := by
  have hm : c ∈ lowerHexChars := of_decide_eq_true hc
  fin_cases hm <;> decide

/-- `to_hex` unfolds one byte into its two digits. -/
theorem to_hex_cons (b : Nat) (bs : List Nat) :
    to_hex (b :: bs) = natToHexChar (b / 16) :: natToHexChar (b % 16) :: to_hex bs :=
  rfl

/-- Values below 16 encode to lowercase hex digit characters. -/
theorem natToHexChar_lower (v : Nat) (h : v < 16) :
    isLowerHex (natToHexChar v) = true := by
  interval_cases v <;> decide

/-- Decoding an even-length string of lowercase hex digits succeeds and
`to_hex` re-encodes the bytes to the same string. -/
theorem bytesFromHex_lowerHex (s : List Char) :
    (∀ c ∈ s, isLowerHex c = true) → s.length % 2 = 0 →
    ∃ bs, bytesFromHex s = some bs ∧ to_hex bs = s ∧ 2 * bs.length = s.length ∧
      ∀ b ∈ bs, b < 256 := by
  induction s using bytesFromHex.induct with
  | case1 =>
      intro _ _
      exact ⟨[], rfl, rfl, rfl, by simp⟩
  | case2 c rest hsp ih =>
      intro hall _
      have hns := lowerHex_not_space c (hall c (by simp))
      rw [hsp] at hns
      cases hns
  | case3 c rest hsp hval =>
      intro hall _
      obtain ⟨v, hv, _, _⟩ := lowerHex_val c (hall c (by simp))
      rw [hval] at hv
      cases hv
  | case4 c hsp hi hval =>
      intro _ hlen
      simp at hlen
  | case5 c hsp hi hvalc d rest2 hvald =>
      intro hall _
      obtain ⟨v, hv, _, _⟩ := lowerHex_val d (hall d (by simp))
      rw [hvald] at hv
      cases hv
  | case6 c hsp hi hvalc d rest2 lo hvald ih =>
      intro hall hlen
      obtain ⟨bs, h1, h2, h3, h4⟩ :=
        ih (fun x hx => hall x (by simp [hx])) (by simp at hlen ⊢; omega)
      obtain ⟨vc, hvc, hltc, hrc⟩ := lowerHex_val c (hall c (by simp))
      obtain ⟨vd, hvd, hltd, hrd⟩ := lowerHex_val d (hall d (by simp))
      rw [hvalc] at hvc
      rw [hvald] at hvd
      injection hvc with hvc
      injection hvd with hvd
      subst hvc
      subst hvd
      refine ⟨(hi * 16 + lo) :: bs, ?_, ?_, ?_, ?_⟩
      · simp [bytesFromHex, hsp, hvalc, hvald, h1]
      · rw [to_hex_cons]
        have e1 : (hi * 16 + lo) / 16 = hi := by omega
        have e2 : (hi * 16 + lo) % 16 = lo := by omega
        rw [e1, e2, h2, hrc, hrd]
      · simp at h3 ⊢
        omega
      · intro b hb
        rcases List.mem_cons.1 hb with rfl | hb
        · omega
        · exact h4 b hb

/-- Decode succeeds exactly on syntactically valid hex strings. -/
theorem bytesFromHex_isSome (s : List Char) :
    (bytesFromHex s).isSome = validHexSyntax s := by
  induction s using bytesFromHex.induct with
  | case1 => rfl
  | case2 c rest hsp ih =>
      rw [bytesFromHex.eq_2, if_pos hsp]
      cases rest with
      | nil => simp [bytesFromHex, validHexSyntax, hsp]
      | cons d rest2 =>
          rw [validHexSyntax.eq_3, if_pos hsp]
          exact ih
  | case3 c rest hsp hval =>
      rw [bytesFromHex.eq_2, if_neg hsp]
      cases rest with
      | nil => simp [validHexSyntax, hsp, hval]
      | cons d rest2 =>
          rw [validHexSyntax.eq_3, if_neg hsp]
          simp [hval]
  | case4 c hsp lo hval =>
      rw [bytesFromHex.eq_2, if_neg hsp, validHexSyntax.eq_2, if_neg hsp]
      simp [hval]
  | case5 c hsp lo hval d rest2 hvald =>
      rw [bytesFromHex.eq_2, if_neg hsp, validHexSyntax.eq_3, if_neg hsp]
      simp [hval, hvald]
  | case6 c hsp lo hval d rest2 lo2 hvald ih =>
      rw [bytesFromHex.eq_2, if_neg hsp, validHexSyntax.eq_3, if_neg hsp]
      simp [hval, hvald, ih]

/-- `to_hex` produces two characters per byte. -/
theorem to_hex_length (g : List Nat) : (to_hex g).length = 2 * g.length := by
  induction g with
  | nil => rfl
  | cons b bs ih =>
      rw [to_hex_cons]
      simp [ih]
      omega

/-- `to_hex` of genuine bytes produces only lowercase hex digits. -/
theorem to_hex_lower (g : List Nat) (hall : ∀ b ∈ g, b < 256) :
    ∀ c ∈ to_hex g, isLowerHex c = true := by
  induction g with
  | nil => intro c hc; cases hc
  | cons b bs ih =>
      intro c hc
      rw [to_hex_cons] at hc
      rcases List.mem_cons.1 hc with rfl | hc2
      · exact natToHexChar_lower _ (by have := hall b (by simp); omega)
      · rcases List.mem_cons.1 hc2 with rfl | hc3
        · exact natToHexChar_lower _ (by omega)
        · exact ih (fun x hx => hall x (by simp [hx])) c hc3

/-! ### Claims -/

/-- C5: `pad_guid` returns its input unchanged at length 6, right-pads with
zero bytes below 6, truncates to the first 6 bytes above 6, and always
returns exactly 6 bytes — no input length is rejected. -/
theorem c5_pad_guid_spec (b : List Nat) :
    (b.length = 6 → pad_guid b = b) ∧
    (b.length < 6 → pad_guid b = b ++ List.replicate (6 - b.length) 0) ∧
    (6 < b.length → pad_guid b = b.take 6) ∧
    (pad_guid b).length = 6 := by
  refine ⟨fun h => ?_, fun h => ?_, fun h => ?_, pad_guid_length b⟩
  · simp [pad_guid, h]
  · simp [pad_guid, h]; omega
  · unfold pad_guid
    rw [if_neg (by omega), if_neg (by omega)]

/-- C5 witness: the three branches at concrete inputs. -/
theorem c5_pad_guid_spec_witness :
    (pad_guid [1, 2, 3, 4, 5, 6] = [1, 2, 3, 4, 5, 6]) ∧
    (pad_guid [1, 2] = [1, 2] ++ List.replicate (6 - 2) 0) ∧
    (pad_guid [1, 2, 3, 4, 5, 6, 7, 8] = [1, 2, 3, 4, 5, 6, 7, 8].take 6) :=
  ⟨(c5_pad_guid_spec [1, 2, 3, 4, 5, 6]).1 (by decide),
   ((c5_pad_guid_spec [1, 2]).2.1 (by decide)),
   ((c5_pad_guid_spec [1, 2, 3, 4, 5, 6, 7, 8]).2.2.1 (by decide))⟩

/-- C7: `compute_hmac` fails with the invalid-key-length error whenever the
key is not 32 bytes; with a 32-byte key it fails with the invalid-tag-length
error when the requested length exceeds 32, and otherwise returns exactly the
first `truncate_to` bytes of the full HMAC-SHA-256 digest (determinism is
definitional: the embedding is a pure function of its arguments). -/
theorem c7_compute_hmac_spec (msg key : List Nat) (t : Nat) :
    (key.length ≠ 32 → compute_hmac msg key t = .error .invalidKeyLength) ∧
    (key.length = 32 → 32 < t → compute_hmac msg key t = .error .invalidTagLength) ∧
    (key.length = 32 → t ≤ 32 →
      compute_hmac msg key t = .ok ((hmacSha256 key msg).take t) ∧
      ((hmacSha256 key msg).take t).length = t) := by
  refine ⟨fun h => ?_, fun h1 h2 => ?_, fun h1 h2 => ⟨?_, ?_⟩⟩
  · simp [compute_hmac, h]
  · simp [compute_hmac, h1, h2]
  · simp [compute_hmac, h1]; omega
  · rw [List.length_take, hmacSha256_length]; omega

/-- C7 witness: the error branches and the success branch at concrete
inputs. -/
theorem c7_compute_hmac_spec_witness :
    (compute_hmac [1] [0] 16 = .error .invalidKeyLength) ∧
    (compute_hmac [1] (List.replicate 32 0) 33 = .error .invalidTagLength) ∧
    (compute_hmac [1] (List.replicate 32 0) 16 =
       .ok ((hmacSha256 (List.replicate 32 0) [1]).take 16) ∧
     ((hmacSha256 (List.replicate 32 0) [1]).take 16).length = 16) :=
  ⟨(c7_compute_hmac_spec [1] [0] 16).1 (by decide),
   (c7_compute_hmac_spec [1] (List.replicate 32 0) 33).2.1 (by decide) (by decide),
   (c7_compute_hmac_spec [1] (List.replicate 32 0) 16).2.2 (by decide) (by decide)⟩

/-- C4: MAC validation is a total boolean predicate — in this embedding both
validators return `Bool` on every input by construction — and any internal
failure during tag recomputation (a key that is not 32 bytes, an oversized
tag length, a GUID that is not 6 bytes) is collapsed to `false`, never
propagated as an error. -/
theorem c4_verify_mac_total (data key tag g : List Nat) (t : Nat) :
    (∀ err, compute_hmac data key t = .error err →
       validate_hmac_constant_time data key tag t = false) ∧
    (key.length ≠ 32 → validate_hmac_constant_time data key tag t = false) ∧
    (32 < t → validate_hmac_constant_time data key tag t = false) ∧
    (key.length ≠ 32 → validate_packet_hmac g data key tag = false) ∧
    (g.length ≠ 6 → validate_packet_hmac g data key tag = false) := by
  refine ⟨fun err herr => ?_, fun h => ?_, fun h => ?_, fun h => ?_, fun h => ?_⟩
  · simp [validate_hmac_constant_time, herr]
  · simp [validate_hmac_constant_time, compute_hmac, h]
  · unfold validate_hmac_constant_time compute_hmac
    by_cases hk : key.length = 32
    · simp [hk, h]
    · simp [hk]
  · unfold validate_packet_hmac compute_packet_hmac
    by_cases hg : g.length = 6
    · simp [hg, compute_hmac, h]
    · simp [hg]
  · simp [validate_packet_hmac, compute_packet_hmac, h]

/-- C4 witness: a 1-byte key and a 1-byte GUID both yield `false`, not an
error. -/
theorem c4_verify_mac_total_witness :
    (validate_hmac_constant_time [1] [0] [2] 16 = false) ∧
    (validate_packet_hmac [0] [1] [0] [2] = false) :=
  ⟨(c4_verify_mac_total [1] [0] [2] [0] 16).1 .invalidKeyLength rfl,
   (c4_verify_mac_total [1] [0] [2] [0] 16).2.2.2.2 (by decide)⟩

/-- C3: `from_bytes` returns `none` exactly on inputs shorter than 22 bytes;
on any input of at least 22 bytes it returns the well-formed packet whose
mac is bytes [0:16], whose identifier is bytes [16:22], and whose payload is
bytes [22:] (possibly empty). -/
theorem c3_from_bytes_spec (b : List Nat) :
    (Packet.from_bytes b = none ↔ b.length < 22) ∧
    (22 ≤ b.length →
      Packet.from_bytes b = some ⟨b.take 16, (b.drop 16).take 6, b.drop 22⟩ ∧
      (b.take 16).length = 16 ∧ ((b.drop 16).take 6).length = 6) := by
  constructor
  · constructor
    · intro h
      by_contra hlen
      rw [from_bytes_of_le (by omega)] at h
      cases h
    · intro h
      simp [Packet.from_bytes, h]
  · intro h
    exact ⟨from_bytes_of_le h, by simp; omega, by simp; omega⟩

/-- C3 witness: a 21-byte buffer is rejected; a 23-byte buffer decodes into
its three slices. -/
theorem c3_from_bytes_spec_witness :
    (Packet.from_bytes (List.replicate 21 0) = none) ∧
    (Packet.from_bytes (List.replicate 23 7) =
       some ⟨(List.replicate 23 7).take 16, ((List.replicate 23 7).drop 16).take 6,
             (List.replicate 23 7).drop 22⟩) :=
  ⟨(c3_from_bytes_spec (List.replicate 21 0)).1.2 (by decide),
   ((c3_from_bytes_spec (List.replicate 23 7)).2 (by decide)).1⟩

/-- C10: structural encode and decode are mutually inverse — every buffer of
at least 22 bytes decodes to a packet that re-encodes to the same buffer,
and every well-formed packet re-decodes from its encoding to itself —
independent of keys and authenticity. -/
theorem c10_encode_decode_inverse :
    (∀ b : List Nat, 22 ≤ b.length →
       ∃ p, Packet.from_bytes b = some p ∧ p.to_bytes = b) ∧
    (∀ p : Packet, p.hmac.length = 16 → p.guid.length = 6 →
       Packet.from_bytes p.to_bytes = some p) := by
  constructor
  · intro b hb
    refine ⟨_, from_bytes_of_le hb, ?_⟩
    simp only [Packet.to_bytes]
    have h22 : b.drop 22 = (b.drop 16).drop 6 := by
      rw [List.drop_drop]
    rw [List.append_assoc, h22, List.take_append_drop, List.take_append_drop]
  · intro p h16 h6
    have hlen : 22 ≤ p.to_bytes.length := by
      simp [Packet.to_bytes, h16, h6]
      omega
    rw [from_bytes_of_le hlen]
    have e1 : p.to_bytes = p.hmac ++ (p.guid ++ p.payload) := by
      simp [Packet.to_bytes]
    have t1 : p.to_bytes.take 16 = p.hmac := by
      rw [e1]; exact List.take_left' h16
    have d1 : p.to_bytes.drop 16 = p.guid ++ p.payload := by
      rw [e1]; exact List.drop_left' h16
    have t2 : (p.guid ++ p.payload).take 6 = p.guid := List.take_left' h6
    have d2 : p.to_bytes.drop 22 = p.payload := by
      have e2 : p.to_bytes = (p.hmac ++ p.guid) ++ p.payload := by
        simp [Packet.to_bytes]
      rw [e2]
      exact List.drop_left' (by simp [h16, h6])
    rw [t1, d1, t2, d2]

/-- C10 witness: both directions at a concrete buffer and a concrete
packet. -/
theorem c10_encode_decode_inverse_witness :
    (∃ p, Packet.from_bytes (List.replicate 25 3) = some p ∧
       p.to_bytes = List.replicate 25 3) ∧
    (Packet.from_bytes (Packet.to_bytes ⟨List.replicate 16 1, List.replicate 6 2, [9]⟩) =
       some ⟨List.replicate 16 1, List.replicate 6 2, [9]⟩) :=
  ⟨c10_encode_decode_inverse.1 (List.replicate 25 3) (by decide),
   c10_encode_decode_inverse.2 ⟨List.replicate 16 1, List.replicate 6 2, [9]⟩
     (by decide) (by decide)⟩

/-- C8: a packet constructs successfully exactly when its mac is 16 bytes
and its identifier 6 bytes, construction preserves the given fields, and
every packet produced by the builder or the parser satisfies the two length
invariants (immutability is definitional in this embedding: packets are
values and no operation rebinds a field). -/
theorem c8_packet_invariant :
    (∀ hm g pl : List Nat,
       (∃ pkt, mkPacket hm g pl = .ok pkt) ↔ hm.length = 16 ∧ g.length = 6) ∧
    (∀ hm g pl pkt, mkPacket hm g pl = .ok pkt → pkt = ⟨hm, g, pl⟩) ∧
    (∀ g pl key pkt, build_packet g pl key = .ok pkt →
       pkt.hmac.length = 16 ∧ pkt.guid.length = 6) ∧
    (∀ b pkt, Packet.from_bytes b = some pkt →
       pkt.hmac.length = 16 ∧ pkt.guid.length = 6) := by
  refine ⟨fun hm g pl => ⟨fun ⟨pkt, hp⟩ => ?_, fun ⟨h1, h2⟩ => ?_⟩,
          fun hm g pl pkt hp => (mkPacket_ok.1 hp).2.2,
          fun g pl key pkt hp => ?_, fun b pkt hp => ?_⟩
  · exact ⟨(mkPacket_ok.1 hp).1, (mkPacket_ok.1 hp).2.1⟩
  · exact ⟨_, mkPacket_ok.2 ⟨h1, h2, rfl⟩⟩
  · unfold build_packet at hp
    cases hc : compute_packet_hmac (pad_guid g) pl key with
    | error e => rw [hc] at hp; cases hp
    | ok mac =>
        rw [hc] at hp
        obtain ⟨hl1, hl2, hpkt⟩ := mkPacket_ok.1 hp
        rw [hpkt]
        exact ⟨hl1, hl2⟩
  · unfold Packet.from_bytes at hp
    by_cases hb : b.length < 22
    · rw [if_pos hb] at hp; cases hp
    · rw [if_neg hb] at hp
      cases hm : mkPacket (b.take 16) ((b.drop 16).take 6) (b.drop 22) with
      | error e => rw [hm] at hp; cases hp
      | ok pkt2 =>
          rw [hm] at hp
          cases hp
          obtain ⟨hl1, hl2, hpkt⟩ := mkPacket_ok.1 hm
          rw [hpkt]
          exact ⟨hl1, hl2⟩

/-- C8 witness: constructing with correct lengths succeeds and with a short
mac fails; a parsed packet satisfies the invariants. -/
theorem c8_packet_invariant_witness :
    (∃ pkt, mkPacket (List.replicate 16 0) (List.replicate 6 1) [5] = .ok pkt) ∧
    ¬(List.replicate 15 0).length = 16 ∧
    (∀ pkt, mkPacket (List.replicate 16 0) (List.replicate 6 1) [5] = .ok pkt →
       pkt = ⟨List.replicate 16 0, List.replicate 6 1, [5]⟩) :=
  ⟨(c8_packet_invariant.1 (List.replicate 16 0) (List.replicate 6 1) [5]).2
     ⟨by decide, by decide⟩,
   by decide,
   fun pkt hp => c8_packet_invariant.2.1 _ _ _ pkt hp⟩

/-- C2: with a 32-byte key, `build_packet` returns the packet whose mac is
the first 16 bytes of HMAC-SHA-256(key, pad(identifier) ++ payload) — the
MAC input is the normalized identifier, never the unpadded caller-supplied
one — whose identifier is `pad_guid identifier`, and whose payload is the
unmodified payload. -/
theorem c2_build_packet_spec (g p key : List Nat) (hk : key.length = 32) :
    build_packet g p key =
      .ok ⟨(hmacSha256 key (pad_guid g ++ p)).take 16, pad_guid g, p⟩ :=
  build_packet_ok_eq g p key hk

/-- C2 witness: a 2-byte identifier is normalized before building. -/
theorem c2_build_packet_spec_witness :
    build_packet [1, 2] [9] (List.replicate 32 0) =
      .ok ⟨(hmacSha256 (List.replicate 32 0) (pad_guid [1, 2] ++ [9])).take 16,
           pad_guid [1, 2], [9]⟩ :=
  c2_build_packet_spec [1, 2] [9] (List.replicate 32 0) (by decide)

/-- C1: with a 32-byte key, `build_and_serialize` succeeds, and
`parse_and_validate` of its output under the same key returns the packet
whose identifier is the normalized `pad_guid identifier` and whose payload
is the original payload — the build/serialize/parse/validate round trip
succeeds and reproduces the normalized fields. -/
theorem c1_round_trip (g p key : List Nat) (hk : key.length = 32) :
    build_and_serialize g p key =
      .ok ((hmacSha256 key (pad_guid g ++ p)).take 16 ++ pad_guid g ++ p) ∧
    parse_and_validate
        ((hmacSha256 key (pad_guid g ++ p)).take 16 ++ pad_guid g ++ p) key =
      some ⟨(hmacSha256 key (pad_guid g ++ p)).take 16, pad_guid g, p⟩ := by
  have hml : ((hmacSha256 key (pad_guid g ++ p)).take 16).length = 16 := by
    simp [hmacSha256_length]
  constructor
  · unfold build_and_serialize
    rw [build_packet_ok_eq g p key hk]
    rfl
  · have hb : 22 ≤ ((hmacSha256 key (pad_guid g ++ p)).take 16 ++
        pad_guid g ++ p).length := by
      simp [hml, pad_guid_length]
      omega
    unfold parse_and_validate parse_packet
    rw [from_bytes_of_le hb]
    have e1 : (hmacSha256 key (pad_guid g ++ p)).take 16 ++ pad_guid g ++ p =
        (hmacSha256 key (pad_guid g ++ p)).take 16 ++ (pad_guid g ++ p) := by
      rw [List.append_assoc]
    have t1 : ((hmacSha256 key (pad_guid g ++ p)).take 16 ++ pad_guid g ++ p).take 16 =
        (hmacSha256 key (pad_guid g ++ p)).take 16 := by
      rw [e1]; exact List.take_left' hml
    have d1 : ((hmacSha256 key (pad_guid g ++ p)).take 16 ++ pad_guid g ++ p).drop 16 =
        pad_guid g ++ p := by
      rw [e1]; exact List.drop_left' hml
    have d2 : ((hmacSha256 key (pad_guid g ++ p)).take 16 ++ pad_guid g ++ p).drop 22 =
        p := List.drop_left' (by simp [hml, pad_guid_length])
    rw [t1, d1, d2, List.take_left' (pad_guid_length g)]
    have hv : validate_hmac ⟨(hmacSha256 key (pad_guid g ++ p)).take 16,
        pad_guid g, p⟩ key = true := by
      unfold validate_hmac validate_packet_hmac
      rw [compute_packet_hmac_eq g p key hk]
      simp
    simp only [hv, if_true]

/-- C1 witness: the round trip at a concrete identifier, payload and key. -/
theorem c1_round_trip_witness :
    build_and_serialize [1, 2] [5, 6] (List.replicate 32 0) =
      .ok ((hmacSha256 (List.replicate 32 0) (pad_guid [1, 2] ++ [5, 6])).take 16 ++
           pad_guid [1, 2] ++ [5, 6]) ∧
    parse_and_validate
        ((hmacSha256 (List.replicate 32 0) (pad_guid [1, 2] ++ [5, 6])).take 16 ++
         pad_guid [1, 2] ++ [5, 6]) (List.replicate 32 0) =
      some ⟨(hmacSha256 (List.replicate 32 0) (pad_guid [1, 2] ++ [5, 6])).take 16,
            pad_guid [1, 2], [5, 6]⟩ :=
  c1_round_trip [1, 2] [5, 6] (List.replicate 32 0) (by decide)

/-- C9: for every string of exactly 12 lowercase hex characters, `from_hex`
succeeds and `to_hex` maps the result back to the same string; and for every
6-byte identifier, `to_hex` yields exactly 12 characters, all lowercase hex
digits. -/
theorem c9_hex_round_trip :
    (∀ s : List Char, s.length = 12 → (∀ c ∈ s, isLowerHex c = true) →
       ∃ bs, from_hex s = .ok bs ∧ to_hex bs = s) ∧
    (∀ g : List Nat, g.length = 6 → (∀ b ∈ g, b < 256) →
       (to_hex g).length = 12 ∧ ∀ c ∈ to_hex g, isLowerHex c = true) := by
  constructor
  · intro s hlen hall
    obtain ⟨bs, h1, h2, h3, _⟩ := bytesFromHex_lowerHex s hall (by omega)
    have hbs : bs.length = 6 := by omega
    refine ⟨bs, ?_, h2⟩
    unfold from_hex
    rw [h1]
    simp [pad_guid, hbs]
  · intro g hlen hall
    exact ⟨by rw [to_hex_length, hlen], to_hex_lower g hall⟩

/-- C9 witness: a concrete 12-character lowercase hex string round-trips,
and a concrete 6-byte identifier encodes to 12 lowercase hex characters. -/
theorem c9_hex_round_trip_witness :
    (∃ bs, from_hex ['0', '1', '0', '2', '0', '3', '0', 'a', 'f', 'b', '9', 'c'] = .ok bs ∧
       to_hex bs = ['0', '1', '0', '2', '0', '3', '0', 'a', 'f', 'b', '9', 'c']) ∧
    ((to_hex [1, 2, 3, 4, 5, 255]).length = 12 ∧
       ∀ c ∈ to_hex [1, 2, 3, 4, 5, 255], isLowerHex c = true) :=
  ⟨c9_hex_round_trip.1 ['0', '1', '0', '2', '0', '3', '0', 'a', 'f', 'b', '9', 'c']
     (by decide) (by decide),
   c9_hex_round_trip.2 [1, 2, 3, 4, 5, 255] (by decide) (by decide)⟩

/-- C6 counterexample: the string "01 02" contains a character that is not a
hex digit (the space), yet `from_hex` succeeds on it — Python's
`bytes.fromhex` skips ASCII whitespace between byte pairs — refuting the
claim that `from_hex` fails exactly on strings with a non-hex character or
odd length. -/
theorem c6_counterexample :
    (∃ c, c ∈ (['0', '1', ' ', '0', '2'] : List Char) ∧ hexDigitVal c = none) ∧
    from_hex ['0', '1', ' ', '0', '2'] = .ok [1, 2, 0, 0, 0, 0] := by
  constructor
  · exact ⟨' ', by decide, by decide⟩
  · rfl

/-- C6 (amended): `from_hex` fails with the decode error exactly when the
string is not — after ignoring ASCII whitespace between byte pairs — a
sequence of two-hex-digit pairs (in particular on any non-hex,
non-whitespace character, on an odd number of hex digits, and on whitespace
splitting a digit pair); on success it returns `pad_guid` of the decoded
bytes, and the empty string decodes to 6 zero bytes. -/
theorem c6_from_hex_amended (s : List Char) :
    ((∃ e, from_hex s = .error e) ↔ validHexSyntax s = false) ∧
    (∀ bs, bytesFromHex s = some bs → from_hex s = .ok (pad_guid bs)) ∧
    from_hex [] = .ok [0, 0, 0, 0, 0, 0] := by
  refine ⟨⟨?_, ?_⟩, fun bs hb => ?_, rfl⟩
  · intro ⟨e, he⟩
    cases hb : bytesFromHex s with
    | none => rw [← bytesFromHex_isSome, hb]; rfl
    | some bs =>
        unfold from_hex at he
        rw [hb] at he
        cases he
  · intro h
    cases hb : bytesFromHex s with
    | none =>
        refine ⟨.hexDecodeError, ?_⟩
        unfold from_hex
        rw [hb]
    | some bs =>
        rw [← bytesFromHex_isSome, hb] at h
        cases h
  · unfold from_hex
    rw [hb]

/-- C6 amended witness: "ab" decodes to the padded byte 0xab, and "z" (an
invalid character) is rejected. -/
theorem c6_from_hex_amended_witness :
    from_hex ['a', 'b'] = .ok (pad_guid [171]) ∧
    (∃ e, from_hex ['z'] = .error e) :=
  ⟨(c6_from_hex_amended ['a', 'b']).2.1 [171] rfl,
   (c6_from_hex_amended ['z']).1.2 (by decide)⟩

end Yx
